import Mathlib

/-!
# Verification of the WebSocket notification server core

Shallow embedding of the connection registry, shutdown coordinator,
notification scheduler and per-session handler of `src/main.py`
(FastAPI WebSocket server), together with proofs of the specified
properties.

Connection handles (Python `WebSocket` objects, compared by identity)
are modelled as natural numbers.  The registry set
`ConnectionManager.active_connections` is a `Finset ℕ`.  Whether the
transport send to a given handle fails during a broadcast pass is
modelled by a predicate `fails : ℕ → Bool` (in the source, failure is
`connection.send_json` raising an exception).
-/

namespace WsServer

/-! ## Connection registry (`ConnectionManager`) -/

/-- One iteration of broadcast's send loop per snapshot element:
`try: await connection.send_json(message) except: disconnected.add(connection)`.
The fold carries `(delivered, disconnected)`: the number of sends that
succeeded so far and the set of handles whose send raised. -/
def sendPass (fails : ℕ → Bool) (conns : List ℕ) : ℕ × Finset ℕ :=
  conns.foldl
    (fun acc c => if fails c then (acc.1, insert c acc.2) else (acc.1 + 1, acc.2))
    (0, ∅)

/-- Result of one `ConnectionManager.broadcast` call: the new value of
`active_connections`, the number of send attempts made, and the number
of sends that succeeded. -/
structure BroadcastResult where
  newConnections : Finset ℕ
  attempts : ℕ
  delivered : ℕ
  deriving DecidableEq

/-- Embeds `ConnectionManager.broadcast` (src/main.py lines 34-52): if the set is
empty, return at once; otherwise snapshot-copy the set under the lock,
send to every handle of the snapshot outside the lock, and afterwards,
if any sends failed, remove the failed handles in one batch under the
lock (`self.active_connections -= disconnected`).  The snapshot is
enumerated in ascending order (Python iterates its set snapshot in an
unspecified order; every property proved below is order-independent). -/
def broadcast (fails : ℕ → Bool) (s : Finset ℕ) : BroadcastResult :=
  if s = ∅ then
    { newConnections := s, attempts := 0, delivered := 0 }
  else
    let connections := s.sort (· ≤ ·)
    let res := sendPass fails connections
    { newConnections := if res.2 = ∅ then s else s \ res.2
      attempts := connections.length
      delivered := res.1 }

/-- The membership effect of `ConnectionManager.connect` once
`websocket.accept()` has succeeded: insert the handle under the lock. -/
def connect (ws : ℕ) (s : Finset ℕ) : Finset ℕ := insert ws s

/-- Embeds `ConnectionManager.disconnect`: `self.active_connections.discard(websocket)`
under the lock — removes if present, no-op if absent. -/
def disconnect (ws : ℕ) (s : Finset ℕ) : Finset ℕ := s.erase ws

/-- Embeds `ConnectionManager.connection_count`: `len(self.active_connections)`. -/
def connection_count (s : Finset ℕ) : ℕ := s.card

/-! ### Broadcast lemmas -/

theorem sendPass_foldl (fails : ℕ → Bool) (l : List ℕ) (d : ℕ) (dis : Finset ℕ) :
    l.foldl
      (fun acc c => if fails c then (acc.1, insert c acc.2) else (acc.1 + 1, acc.2))
      (d, dis)
      = (d + (l.filter (fun c => ¬ fails c)).length, dis ∪ (l.filter (fun c => fails c)).toFinset) := by
  induction l generalizing d dis with
  | nil => simp
  | cons c l ih =>
    by_cases hc : fails c
    · simp only [List.foldl_cons, hc, if_pos, List.filter_cons]
      rw [ih]
      simp [hc, Finset.union_comm, Finset.union_insert, Finset.insert_union]
    · simp only [List.foldl_cons, hc, if_neg, List.filter_cons]
      rw [ih]
      simp [hc, Nat.add_assoc, Nat.add_comm 1]

theorem sendPass_eq (fails : ℕ → Bool) (l : List ℕ) :
    sendPass fails l
      = ((l.filter (fun c => ¬ fails c)).length, (l.filter (fun c => fails c)).toFinset) := by
  rw [sendPass, sendPass_foldl]
  simp

theorem sort_filter_toFinset (s : Finset ℕ) (p : ℕ → Bool) :
    ((s.sort (· ≤ ·)).filter (fun c => p c)).toFinset = s.filter (fun c => p c) := by
  ext a
  simp [List.mem_filter, Finset.mem_sort]

theorem sort_filter_length (s : Finset ℕ) (p : ℕ → Bool) :
    ((s.sort (· ≤ ·)).filter (fun c => p c)).length = (s.filter (fun c => p c)).card := by
  have hnd : ((s.sort (· ≤ ·)).filter (fun c => p c)).Nodup :=
    (Finset.sort_nodup _ s).filter _
  rw [← sort_filter_toFinset s p, List.toFinset_card_of_nodup hnd]

/-- The set produced by a broadcast is the old set minus its failing members. -/
theorem broadcast_newConnections (fails : ℕ → Bool) (s : Finset ℕ) :
    (broadcast fails s).newConnections = s \ s.filter (fun c => fails c) := by
  by_cases hs : s = ∅
  · subst hs; simp [broadcast]
  · rw [broadcast, if_neg hs]
    simp only [sendPass_eq, sort_filter_toFinset]
    by_cases hdis : s.filter (fun c => fails c) = ∅
    · simp [hdis]
    · simp [hdis]

/-- The number of successful deliveries of a broadcast is the number of
non-failing members of the snapshot. -/
theorem broadcast_delivered (fails : ℕ → Bool) (s : Finset ℕ) :
    (broadcast fails s).delivered = (s.filter (fun c => ¬ fails c)).card := by
  by_cases hs : s = ∅
  · subst hs; simp [broadcast]
  · rw [broadcast, if_neg hs]
    simp only [sendPass_eq]
    simpa using sort_filter_length s (fun c => !fails c)

/-! ## Registry operation sequences -/

/-- One registry call, as interleaved by the session handlers and the
notification scheduler: `connect` (add), `disconnect` (remove), or
`broadcast` with a given pattern of send failures. -/
inductive RegistryOp where
  | add (h : ℕ)
  | remove (h : ℕ)
  | broadcastCall (fails : ℕ → Bool)

/-- The membership effect of one registry call on `active_connections`. -/
def applyOp (s : Finset ℕ) : RegistryOp → Finset ℕ
  | .add h => connect h s
  | .remove h => disconnect h s
  | .broadcastCall fails => (broadcast fails s).newConnections

/-- Run a sequence of registry calls from state `s`. -/
def runOps (s : Finset ℕ) (ops : List RegistryOp) : Finset ℕ :=
  ops.foldl applyOp s

/-- Modelled from the claim's words: the set of distinct handles that are
named by `add` operations anywhere in the sequence. -/
def distinctHandlesAdded (ops : List RegistryOp) : Finset ℕ :=
  (ops.filterMap fun op =>
    match op with
    | .add h => some h
    | _ => none).toFinset

/-- Number of handles an operation removes from state `s`: an explicit
`remove` of a present handle removes one; a broadcast removes every
present handle whose send fails; `add` removes none. -/
def opRemovals (s : Finset ℕ) : RegistryOp → ℕ
  | .add _ => 0
  | .remove h => if h ∈ s then 1 else 0
  | .broadcastCall fails => (s.filter fun c => fails c).card

/-- Number of handles an operation inserts into state `s`: an `add` of an
absent handle inserts one; everything else inserts none. -/
def opAdds (s : Finset ℕ) : RegistryOp → ℕ
  | .add h => if h ∈ s then 0 else 1
  | _ => 0

/-- Effective removals performed along a run of the sequence from `s`. -/
def effectiveRemovals : Finset ℕ → List RegistryOp → ℕ
  | _, [] => 0
  | s, op :: ops => opRemovals s op + effectiveRemovals (applyOp s op) ops

/-- Effective additions performed along a run of the sequence from `s`. -/
def effectiveAdds : Finset ℕ → List RegistryOp → ℕ
  | _, [] => 0
  | s, op :: ops => opAdds s op + effectiveAdds (applyOp s op) ops

theorem applyOp_card (s : Finset ℕ) (op : RegistryOp) :
    connection_count (applyOp s op) + opRemovals s op
      = connection_count s + opAdds s op := by
  cases op with
  | add h =>
    by_cases hm : h ∈ s
    · simp [applyOp, connect, connection_count, opRemovals, opAdds, hm,
        Finset.insert_eq_self.mpr hm]
    · simp [applyOp, connect, connection_count, opRemovals, opAdds, hm,
        Finset.card_insert_of_not_mem hm]
  | remove h =>
    by_cases hm : h ∈ s
    · simp only [applyOp, disconnect, connection_count, opRemovals, opAdds, if_pos hm]
      rw [Finset.card_erase_add_one hm]
      omega
    · simp [applyOp, disconnect, connection_count, opRemovals, opAdds, hm,
        Finset.erase_eq_self.mpr hm]
  | broadcastCall fails =>
    simp only [applyOp, connection_count, opRemovals, opAdds,
      broadcast_newConnections]
    rw [Finset.card_sdiff_add_card_eq_card (Finset.filter_subset _ s)]
    omega

theorem runOps_count_general (ops : List RegistryOp) (s : Finset ℕ) :
    connection_count (runOps s ops) + effectiveRemovals s ops
      = connection_count s + effectiveAdds s ops := by
  induction ops generalizing s with
  | nil => simp [runOps, effectiveRemovals, effectiveAdds]
  | cons op ops ih =>
    have hstep : runOps s (op :: ops) = runOps (applyOp s op) ops := rfl
    rw [hstep, effectiveRemovals, effectiveAdds, ← Nat.add_assoc,
      Nat.add_comm (connection_count (runOps (applyOp s op) ops)) (opRemovals s op),
      Nat.add_assoc, ih (applyOp s op), ← Nat.add_assoc]
    rw [Nat.add_comm (opRemovals s op) (connection_count (applyOp s op)),
      applyOp_card s op]
    omega

/-! ## Session handler (`websocket_endpoint`) -/

/-- One iteration of the handler's receive loop that does not terminate the
session: either `asyncio.wait_for(websocket.receive_text(), timeout=60.0)`
returns a text frame, or it raises `asyncio.TimeoutError`. -/
inductive LoopEvent where
  | msg (data : String)
  | timeout
  deriving DecidableEq

/-- The reason the (otherwise infinite) receive loop ends: the client closes
cleanly (`WebSocketDisconnect`), the transport raises some other
`Exception`, or process shutdown forces the task away
(`asyncio.CancelledError`, which `except Exception` does not catch). -/
inductive TermReason where
  | cleanClose
  | transportError
  | forcedShutdown
  deriving DecidableEq

/-- A message the handler sends to its own client (the JSON payloads of
src/main.py lines 250-270, identified by their `type` discriminant and
`message` field; timestamps are not modelled). -/
inductive SentMsg where
  | welcome
  | echo (message : String)
  | ping
  deriving DecidableEq

/-- A call the handler makes into the `ConnectionManager`. -/
inductive RegCall where
  | addCall (h : ℕ)
  | removeCall (h : ℕ)
  deriving DecidableEq

/-- The `while True` receive loop: a received frame is answered with an
`echo` payload whose message is `"Server received: "` plus the original
text; a timeout is answered with a `ping` payload, and the loop
continues either way. -/
def sessionLoop : List LoopEvent → List SentMsg
  | [] => []
  | .msg data :: es => .echo ("Server received: " ++ data) :: sessionLoop es
  | .timeout :: es => .ping :: sessionLoop es

/-- Everything observable about one run of `websocket_endpoint`. -/
structure SessionResult where
  finalConnections : Finset ℕ
  sent : List SentMsg
  registryCalls : List RegCall
  raised : Option TermReason
  deriving DecidableEq

/-- Embeds `websocket_endpoint` (src/main.py lines 245-277) for a session whose
accept handshake succeeds iff `acceptOk`, whose receive loop sees
`events` and then terminates for reason `term`.

* `connect` (`await websocket.accept()` then insert under the lock) runs
  before the `try`; if the accept raises, the exception propagates and
  neither the registry insert nor the `finally` block is ever reached.
* Inside `try`: the welcome payload, then the receive loop.
* `except WebSocketDisconnect` and `except Exception` swallow the first
  two termination reasons; `asyncio.CancelledError` (forced shutdown)
  is not caught and propagates after cleanup.
* `finally`: `connection_manager.disconnect(websocket)` always runs. -/
def websocket_endpoint (acceptOk : Bool) (ws : ℕ) (s : Finset ℕ)
    (events : List LoopEvent) (term : TermReason) : SessionResult :=
  if acceptOk = false then
    { finalConnections := s
      sent := []
      registryCalls := []
      raised := some .transportError }
  else
    let s1 := connect ws s
    let bodySent := SentMsg.welcome :: sessionLoop events
    let handled : Option TermReason :=
      match term with
      | .cleanClose => none
      | .transportError => none
      | .forcedShutdown => some .forcedShutdown
    let s2 := disconnect ws s1
    { finalConnections := s2
      sent := bodySent
      registryCalls := [.addCall ws, .removeCall ws]
      raised := handled }

/-! ## Shutdown coordinator (`GracefulShutdownManager`) -/

/-- How `wait_for_shutdown`'s polling loop exits: all connections closed
(graceful) or the timeout elapsed (forced). -/
inductive WaitResult where
  | graceful
  | forced
  deriving DecidableEq

/-- The polling loop of `GracefulShutdownManager.wait_for_shutdown`
(src/main.py lines 74-94).  `count i` is the value
`self.manager.connection_count` returns at the i-th poll and `elapsed i`
the wall-clock time (in seconds) since `start_time` at the i-th poll;
the loop sleeps 5 seconds between polls.  `fuel` bounds the number of
iterations we unfold; the termination theorem shows that
`timeout / 5 + 2` iterations always suffice, so the bound is never the
reason the loop stops.  Returns the exit kind and the exit poll index. -/
def waitLoopAux (count elapsed : ℕ → ℕ) (timeout : ℕ) :
    ℕ → ℕ → Option (WaitResult × ℕ)
  | 0, _ => none
  | fuel + 1, i =>
    if count i = 0 then some (.graceful, i)
    else if timeout ≤ elapsed i then some (.forced, i)
    else waitLoopAux count elapsed timeout fuel (i + 1)

/-- Result of one `wait_for_shutdown` call. -/
inductive WaitOutcome where
  | skipped
  | completed (r : WaitResult) (exitIndex : ℕ)
  | fuelOut
  deriving DecidableEq

/-- Embeds `GracefulShutdownManager.wait_for_shutdown` (src/main.py lines 66-96):
`if not self.shutdown_initiated: return` — otherwise run the polling
loop.  `skipped` is the early return taken before any poll of the
registry and before any sleep. -/
def wait_for_shutdown (initiated : Bool) (count elapsed : ℕ → ℕ)
    (timeout fuel : ℕ) : WaitOutcome :=
  if initiated = false then .skipped
  else
    match waitLoopAux count elapsed timeout fuel 0 with
    | some (r, i) => .completed r i
    | none => .fuelOut

theorem waitLoopAux_exit (count elapsed : ℕ → ℕ) (timeout : ℕ) :
    ∀ fuel i r j, waitLoopAux count elapsed timeout fuel i = some (r, j) →
      i ≤ j
        ∧ (r = .graceful ↔ count j = 0)
        ∧ (r = .forced → timeout ≤ elapsed j ∧ count j ≠ 0)
        ∧ (∀ m, i ≤ m → m < j → count m ≠ 0 ∧ elapsed m < timeout) := by
  intro fuel
  induction fuel with
  | zero => intro i r j h; simp [waitLoopAux] at h
  | succ fuel ih =>
    intro i r j h
    rw [waitLoopAux] at h
    by_cases h0 : count i = 0
    · rw [if_pos h0] at h
      obtain ⟨hr, hj⟩ := Prod.mk.injEq .. ▸ Option.some.injEq .. ▸ h
      subst hj
      refine ⟨Nat.le_refl i, ?_, ?_, ?_⟩
      · subst hr; simp [h0]
      · subst hr; intro hf; cases hf
      · intro m him hmi; omega
    · rw [if_neg h0] at h
      by_cases ht : timeout ≤ elapsed i
      · rw [if_pos ht] at h
        obtain ⟨hr, hj⟩ := Prod.mk.injEq .. ▸ Option.some.injEq .. ▸ h
        subst hj
        refine ⟨Nat.le_refl i, ?_, ?_, ?_⟩
        · subst hr
          constructor
          · intro hg; cases hg
          · intro hc; exact absurd hc h0
        · intro _; exact ⟨ht, h0⟩
        · intro m him hmi; omega
      · rw [if_neg ht] at h
        obtain ⟨hij, hgr, hfo, hmin⟩ := ih (i + 1) r j h
        refine ⟨by omega, hgr, hfo, ?_⟩
        intro m him hmj
        rcases Nat.eq_or_lt_of_le him with heq | hlt
        · subst heq; exact ⟨h0, Nat.lt_of_not_le ht⟩
        · exact hmin m hlt hmj

theorem waitLoopAux_isSome (count elapsed : ℕ → ℕ) (timeout : ℕ) :
    ∀ fuel i, (∃ k, k < fuel ∧ (count (i + k) = 0 ∨ timeout ≤ elapsed (i + k))) →
      (waitLoopAux count elapsed timeout fuel i).isSome := by
  intro fuel
  induction fuel with
  | zero => intro i ⟨k, hk, _⟩; omega
  | succ fuel ih =>
    intro i ⟨k, hk, hcond⟩
    rw [waitLoopAux]
    by_cases h0 : count i = 0
    · simp [h0]
    · rw [if_neg h0]
      by_cases ht : timeout ≤ elapsed i
      · simp [ht]
      · rw [if_neg ht]
        apply ih
        cases k with
        | zero =>
          simp only [Nat.add_zero] at hcond
          rcases hcond with hc | hc
          · exact absurd hc h0
          · exact absurd hc ht
        | succ k =>
          refine ⟨k, by omega, ?_⟩
          have : i + 1 + k = i + (k + 1) := by omega
          rw [this]
          exact hcond

/-! ## Notification scheduler (`notification_broadcaster`) -/

/-- The payload built each tick (src/main.py lines 113-118): the tick
counter, the `message` text, and `active_connections`, which is
`connection_manager.connection_count` read when the payload is
constructed.  Timestamps are not modelled. -/
structure NotificationMsg where
  counter : ℕ
  message : String
  active_connections : ℕ
  deriving DecidableEq

/-- The scheduler loop body, unrolled for a given number of remaining
ticks: each iteration sleeps, increments the counter, constructs the
payload from the counter and the registry count read at that moment
(`counts` maps the counter value to that reading), and broadcasts it.
`ticks` is the number of iterations the loop runs before it observes
`shutdown_manager.shutdown_initiated` (or is cancelled). -/
def broadcasterAux (counts : ℕ → ℕ) : ℕ → ℕ → List NotificationMsg
  | _, 0 => []
  | c, n + 1 =>
    { counter := c + 1
      message := "Periodic notification #" ++ toString (c + 1)
      active_connections := counts (c + 1) }
      :: broadcasterAux counts (c + 1) n

/-- Embeds `notification_broadcaster` (src/main.py lines 107-125): `counter = 0`,
then the tick loop. -/
def notification_broadcaster (counts : ℕ → ℕ) (ticks : ℕ) : List NotificationMsg :=
  broadcasterAux counts 0 ticks

theorem broadcasterAux_length (counts : ℕ → ℕ) :
    ∀ n c, (broadcasterAux counts c n).length = n := by
  intro n
  induction n with
  | zero => intro c; rfl
  | succ n ih => intro c; simp [broadcasterAux, ih]

theorem broadcasterAux_get (counts : ℕ → ℕ) :
    ∀ n c i (h : i < (broadcasterAux counts c n).length),
      (broadcasterAux counts c n).get ⟨i, h⟩
        = { counter := c + i + 1
            message := "Periodic notification #" ++ toString (c + i + 1)
            active_connections := counts (c + i + 1) } := by
  intro n
  induction n with
  | zero => intro c i h; rw [broadcasterAux_length] at h; omega
  | succ n ih =>
    intro c i h
    cases i with
    | zero => rfl
    | succ i =>
      have hlt : i < (broadcasterAux counts (c + 1) n).length := by
        rw [broadcasterAux_length]
        rw [broadcasterAux_length] at h
        omega
      have := ih (c + 1) i hlt
      simp only [broadcasterAux, List.get_cons_succ]
      rw [this]
      have harith : c + 1 + i + 1 = c + (i + 1) + 1 := by omega
      rw [harith]

/-! ## Lock discipline of the registry (`ConnectionManager._lock`) -/

/-- The atomic steps the `ConnectionManager` methods perform, as they
appear in the source: transport I/O (`websocket.accept()`,
`connection.send_json(...)`), taking and releasing `self._lock`, and the
operations on `self.active_connections` (`add`, `discard`, `.copy()`,
`-= disconnected`). -/
inductive RegAction where
  | netAccept
  | acquire
  | release
  | insertConn (h : ℕ)
  | discardConn (h : ℕ)
  | snapshotCopy
  | netSend (h : ℕ)
  | batchRemove (hs : List ℕ)
  deriving DecidableEq

/-- Steps that mutate `active_connections`. -/
def mutatesSet : RegAction → Bool
  | .insertConn _ => true
  | .discardConn _ => true
  | .batchRemove _ => true
  | _ => false

/-- Steps that are blocking network I/O (they may suspend indefinitely on
a slow peer). -/
def isNetwork : RegAction → Bool
  | .netAccept => true
  | .netSend _ => true
  | _ => false

/-- Step sequence of `ConnectionManager.connect`: accept outside the lock,
then insert inside the critical section. -/
def connectTrace (h : ℕ) : List RegAction :=
  [.netAccept, .acquire, .insertConn h, .release]

/-- Step sequence of `ConnectionManager.disconnect`. -/
def disconnectTrace (h : ℕ) : List RegAction :=
  [.acquire, .discardConn h, .release]

/-- Step sequence of `ConnectionManager.broadcast` over snapshot `snap`:
empty fast path; otherwise copy inside a critical section, send to every
snapshot member outside any critical section, and, only if some send
failed, remove the failed handles in one batch inside a final critical
section. -/
def broadcastTrace (snap : List ℕ) (fails : ℕ → Bool) : List RegAction :=
  if snap = [] then []
  else
    [.acquire, .snapshotCopy, .release]
      ++ snap.map .netSend
      ++ (if snap.filter (fun c => fails c) = [] then []
          else [.acquire, .batchRemove (snap.filter (fun c => fails c)), .release])

/-- One call into the `ConnectionManager`, for building per-task programs. -/
inductive ManagerCall where
  | connectCall (h : ℕ)
  | disconnectCall (h : ℕ)
  | broadcastManagerCall (snap : List ℕ) (fails : ℕ → Bool)

/-- The step sequence a call performs. -/
def traceOf : ManagerCall → List RegAction
  | .connectCall h => connectTrace h
  | .disconnectCall h => disconnectTrace h
  | .broadcastManagerCall snap fails => broadcastTrace snap fails

/-- The step sequence of one task: the concatenation of the manager calls
it makes over its lifetime. -/
def program (calls : List ManagerCall) : List RegAction :=
  (calls.map traceOf).flatten

/-- Lock discipline of a single task's step sequence, starting from lock
depth `held`: `acquire`/`release` are balanced, network I/O happens only
outside the task's own critical section, and set mutations and the
snapshot copy happen only inside it. -/
inductive TaskOk : Bool → List RegAction → Prop
  | done : TaskOk false []
  | acq {s : List RegAction} : TaskOk true s → TaskOk false (.acquire :: s)
  | rel {s : List RegAction} : TaskOk false s → TaskOk true (.release :: s)
  | net {a : RegAction} {s : List RegAction} (hnet : isNetwork a = true) :
      TaskOk false s → TaskOk false (a :: s)
  | inner {a : RegAction} {s : List RegAction}
      (hin : mutatesSet a = true ∨ a = .snapshotCopy) :
      TaskOk true s → TaskOk true (a :: s)

theorem TaskOk.append {b : Bool} {xs ys : List RegAction}
    (hx : TaskOk b xs) (hy : TaskOk false ys) : TaskOk b (xs ++ ys) := by
  induction hx with
  | done => simpa using hy
  | acq _ ih => exact TaskOk.acq ih
  | rel _ ih => exact TaskOk.rel ih
  | net hnet _ ih => exact TaskOk.net hnet ih
  | inner hin _ ih => exact TaskOk.inner hin ih

theorem taskOk_sends (snap : List ℕ) {s : List RegAction}
    (hs : TaskOk false s) : TaskOk false (snap.map RegAction.netSend ++ s) := by
  induction snap with
  | nil => simpa using hs
  | cons c snap ih => exact TaskOk.net rfl ih

theorem taskOk_traceOf (call : ManagerCall) : TaskOk false (traceOf call) := by
  cases call with
  | connectCall h =>
    exact TaskOk.net rfl (TaskOk.acq (TaskOk.inner (Or.inl rfl) (TaskOk.rel TaskOk.done)))
  | disconnectCall h =>
    exact TaskOk.acq (TaskOk.inner (Or.inl rfl) (TaskOk.rel TaskOk.done))
  | broadcastManagerCall snap fails =>
    rw [traceOf, broadcastTrace]
    by_cases hemp : snap = []
    · rw [if_pos hemp]; exact TaskOk.done
    · rw [if_neg hemp]
      by_cases hfail : snap.filter (fun c => fails c) = []
      · rw [if_pos hfail]
        refine TaskOk.acq (TaskOk.inner (Or.inr rfl) (TaskOk.rel ?_))
        simpa using taskOk_sends snap TaskOk.done
      · rw [if_neg hfail]
        refine TaskOk.acq (TaskOk.inner (Or.inr rfl) (TaskOk.rel ?_))
        exact taskOk_sends snap
          (TaskOk.acq (TaskOk.inner (Or.inl rfl) (TaskOk.rel TaskOk.done)))

theorem taskOk_program (calls : List ManagerCall) : TaskOk false (program calls) := by
  induction calls with
  | nil => exact TaskOk.done
  | cons call calls ih =>
    rw [program, List.map_cons, List.flatten_cons]
    exact TaskOk.append (taskOk_traceOf call) ih

/-- The steps task `t` performs in schedule `sched` (a schedule is a
global interleaving: a list of (task id, step) pairs). -/
def proj (t : ℕ) (sched : List (ℕ × RegAction)) : List RegAction :=
  (sched.filter fun p => p.1 == t).map Prod.snd

/-- Semantics of `self._lock` over a schedule: tracks the owning task;
`acquire` succeeds only when the lock is free, `release` only by the
owner.  Returns `none` if the schedule is impossible under mutual
exclusion (e.g. two overlapping critical sections). -/
def runLock : Option ℕ → List (ℕ × RegAction) → Option (Option ℕ)
  | owner, [] => some owner
  | owner, (t, a) :: rest =>
    match a with
    | .acquire => if owner = none then runLock (some t) rest else none
    | .release => if owner = some t then runLock none rest else none
    | _ => runLock owner rest

/-- The safety check the claim asks for, evaluated along a schedule:
at every network-I/O step, the issuing task does not hold the lock
(I/O never executes while the issuing task holds the exclusive-access
lock), and at every `active_connections` mutation or snapshot copy, the
issuing task *does* hold the lock (so, the lock being single-owner,
membership mutation from different tasks is mutually exclusive and
never overlaps a concurrent snapshot). -/
def disciplinedRun : Option ℕ → List (ℕ × RegAction) → Bool
  | _, [] => true
  | owner, (t, a) :: rest =>
    match a with
    | .acquire => decide (owner = none) && disciplinedRun (some t) rest
    | .release => decide (owner = some t) && disciplinedRun none rest
    | _ =>
      (if isNetwork a then decide (owner ≠ some t) else true)
        && (if mutatesSet a || a == RegAction.snapshotCopy
            then decide (owner = some t) else true)
        && disciplinedRun owner rest

theorem proj_cons_self (t : ℕ) (a : RegAction) (sched : List (ℕ × RegAction)) :
    proj t ((t, a) :: sched) = a :: proj t sched := by
  simp [proj]

theorem proj_cons_other {t u : ℕ} (hne : t ≠ u) (a : RegAction)
    (sched : List (ℕ × RegAction)) :
    proj u ((t, a) :: sched) = proj u sched := by
  simp [proj, hne]

theorem disciplined_of_taskOk :
    ∀ (sched : List (ℕ × RegAction)) (owner : Option ℕ),
      (∀ t, TaskOk (decide (owner = some t)) (proj t sched)) →
      (runLock owner sched).isSome →
      disciplinedRun owner sched = true := by
  intro sched
  induction sched with
  | nil => intro owner _ _; rfl
  | cons p rest ih =>
    obtain ⟨t, a⟩ := p
    intro owner hok hrun
    have hself : TaskOk (decide (owner = some t)) (a :: proj t rest) := by
      have h := hok t
      rwa [proj_cons_self] at h
    have hother : ∀ u, t ≠ u → TaskOk (decide (owner = some u)) (proj u rest) := by
      intro u hne
      have h := hok u
      rwa [proj_cons_other hne] at h
    cases a with
    | acquire =>
      by_cases hnone : owner = none
      · subst hnone
        have hd : decide ((none : Option ℕ) = some t) = false := by simp
        rw [hd] at hself
        cases hself with
        | net hnet _ => simp [isNetwork] at hnet
        | acq htail =>
          have hrun' : (runLock (some t) rest).isSome := by
            simpa [runLock] using hrun
          have hnext : ∀ u, TaskOk (decide (some t = some u)) (proj u rest) := by
            intro u
            by_cases hu : u = t
            · subst hu
              simpa using htail
            · have hne : t ≠ u := Ne.symm hu
              rw [show decide ((some t : Option ℕ) = some u) = false by simp [hne]]
              have h := hother u hne
              rwa [show decide ((none : Option ℕ) = some u) = false by simp] at h
          simpa [disciplinedRun] using ih (some t) hnext hrun'
      · exfalso
        simp [runLock, hnone] at hrun
    | release =>
      by_cases howner : owner = some t
      · subst howner
        rw [show decide ((some t : Option ℕ) = some t) = true by simp] at hself
        cases hself with
        | inner hin _ => rcases hin with hx | hx <;> simp [mutatesSet] at hx
        | rel htail =>
          have hrun' : (runLock none rest).isSome := by
            simpa [runLock] using hrun
          have hnext : ∀ u, TaskOk (decide ((none : Option ℕ) = some u)) (proj u rest) := by
            intro u
            rw [show decide ((none : Option ℕ) = some u) = false by simp]
            by_cases hu : u = t
            · subst hu; exact htail
            · have hne : t ≠ u := Ne.symm hu
              have h := hother u hne
              rwa [show decide ((some t : Option ℕ) = some u) = false by
                simp [hne]] at h
          simpa [disciplinedRun] using ih none hnext hrun'
      · exfalso
        simp [runLock, howner] at hrun
    | netAccept =>
      have hrun' : (runLock owner rest).isSome := hrun
      by_cases howner : owner = some t
      · exfalso
        rw [howner, show decide ((some t : Option ℕ) = some t) = true by simp] at hself
        cases hself with
        | inner hin _ => rcases hin with h | h <;> simp [mutatesSet] at h
      · have hd : decide (owner = some t) = false := by simp [howner]
        rw [hd] at hself
        cases hself with
        | net _ htail =>
          have hnext : ∀ u, TaskOk (decide (owner = some u)) (proj u rest) := by
            intro u
            by_cases hu : u = t
            · subst hu; rw [hd]; exact htail
            · exact hother u (Ne.symm hu)
          simpa [disciplinedRun, isNetwork, mutatesSet, howner]
            using ih owner hnext hrun'
    | netSend h =>
      have hrun' : (runLock owner rest).isSome := hrun
      by_cases howner : owner = some t
      · exfalso
        rw [howner, show decide ((some t : Option ℕ) = some t) = true by simp] at hself
        cases hself with
        | inner hin _ => rcases hin with hx | hx <;> simp [mutatesSet] at hx
      · have hd : decide (owner = some t) = false := by simp [howner]
        rw [hd] at hself
        cases hself with
        | net _ htail =>
          have hnext : ∀ u, TaskOk (decide (owner = some u)) (proj u rest) := by
            intro u
            by_cases hu : u = t
            · subst hu; rw [hd]; exact htail
            · exact hother u (Ne.symm hu)
          simpa [disciplinedRun, isNetwork, mutatesSet, howner]
            using ih owner hnext hrun'
    | insertConn h =>
      have hrun' : (runLock owner rest).isSome := hrun
      by_cases howner : owner = some t
      · have hd : decide (owner = some t) = true := by simp [howner]
        rw [hd] at hself
        cases hself with
        | inner _ htail =>
          have hnext : ∀ u, TaskOk (decide (owner = some u)) (proj u rest) := by
            intro u
            by_cases hu : u = t
            · subst hu; rw [hd]; exact htail
            · exact hother u (Ne.symm hu)
          simpa [disciplinedRun, isNetwork, mutatesSet, howner]
            using ih owner hnext hrun'
      · exfalso
        have hd : decide (owner = some t) = false := by simp [howner]
        rw [hd] at hself
        cases hself with
        | net hnet _ => simp [isNetwork] at hnet
    | discardConn h =>
      have hrun' : (runLock owner rest).isSome := hrun
      by_cases howner : owner = some t
      · have hd : decide (owner = some t) = true := by simp [howner]
        rw [hd] at hself
        cases hself with
        | inner _ htail =>
          have hnext : ∀ u, TaskOk (decide (owner = some u)) (proj u rest) := by
            intro u
            by_cases hu : u = t
            · subst hu; rw [hd]; exact htail
            · exact hother u (Ne.symm hu)
          simpa [disciplinedRun, isNetwork, mutatesSet, howner]
            using ih owner hnext hrun'
      · exfalso
        have hd : decide (owner = some t) = false := by simp [howner]
        rw [hd] at hself
        cases hself with
        | net hnet _ => simp [isNetwork] at hnet
    | batchRemove hs =>
      have hrun' : (runLock owner rest).isSome := hrun
      by_cases howner : owner = some t
      · have hd : decide (owner = some t) = true := by simp [howner]
        rw [hd] at hself
        cases hself with
        | inner _ htail =>
          have hnext : ∀ u, TaskOk (decide (owner = some u)) (proj u rest) := by
            intro u
            by_cases hu : u = t
            · subst hu; rw [hd]; exact htail
            · exact hother u (Ne.symm hu)
          simpa [disciplinedRun, isNetwork, mutatesSet, howner]
            using ih owner hnext hrun'
      · exfalso
        have hd : decide (owner = some t) = false := by simp [howner]
        rw [hd] at hself
        cases hself with
        | net hnet _ => simp [isNetwork] at hnet
    | snapshotCopy =>
      have hrun' : (runLock owner rest).isSome := hrun
      by_cases howner : owner = some t
      · have hd : decide (owner = some t) = true := by simp [howner]
        rw [hd] at hself
        cases hself with
        | inner _ htail =>
          have hnext : ∀ u, TaskOk (decide (owner = some u)) (proj u rest) := by
            intro u
            by_cases hu : u = t
            · subst hu; rw [hd]; exact htail
            · exact hother u (Ne.symm hu)
          simpa [disciplinedRun, isNetwork, mutatesSet, howner]
            using ih owner hnext hrun'
      · exfalso
        have hd : decide (owner = some t) = false := by simp [howner]
        rw [hd] at hself
        cases hself with
        | net hnet _ => simp [isNetwork] at hnet

/-! ## Further session-handler definitions and lemmas -/

/-- The reply the receive loop produces for one non-terminating event. -/
def eventReply : LoopEvent → SentMsg
  | .msg data => .echo ("Server received: " ++ data)
  | .timeout => .ping

theorem string_append_left_cancel {s t u : String} (h : s ++ t = s ++ u) : t = u := by
  have hd := congrArg String.data h
  simp only [String.data_append] at hd
  exact String.ext (List.append_cancel_left hd)

theorem sessionLoop_eq_map (events : List LoopEvent) :
    sessionLoop events = events.map eventReply := by
  induction events with
  | nil => rfl
  | cons e es ih => cases e <;> simp [sessionLoop, eventReply, ih]

theorem count_echo_map (d : String) (events : List LoopEvent) :
    (events.map eventReply).count (.echo ("Server received: " ++ d))
      = events.count (.msg d) := by
  induction events with
  | nil => rfl
  | cons e es ih =>
    cases e with
    | msg d2 =>
      by_cases hd : d2 = d
      · subst hd
        simp [eventReply, List.count_cons, ih]
      · have h1 : ("Server received: " ++ d2) ≠ ("Server received: " ++ d) :=
          fun hc => hd (string_append_left_cancel hc)
        simp [eventReply, List.count_cons, ih, h1, hd]
    | timeout =>
      simp [eventReply, List.count_cons, ih]

theorem count_ping_map (events : List LoopEvent) :
    (events.map eventReply).count .ping = events.count .timeout := by
  induction events with
  | nil => rfl
  | cons e es ih => cases e <;> simp [eventReply, List.count_cons, ih]

theorem count_welcome_map (events : List LoopEvent) :
    (events.map eventReply).count .welcome = 0 := by
  induction events with
  | nil => rfl
  | cons e es ih => cases e <;> simp [eventReply, List.count_cons, ih]

/-! ## A concrete interleaved schedule (used as the C5 witness input) -/

/-- Two tasks sharing the registry: task 0 runs `connect(3)` while task 1
runs `broadcast` over the snapshot `[3, 4]` in which the send to handle 4
fails.  The interleaving is legal for the lock. -/
def schedEx : List (ℕ × RegAction) :=
  [(0, .netAccept), (1, .acquire), (1, .snapshotCopy), (1, .release),
   (0, .acquire), (0, .insertConn 3), (0, .release),
   (1, .netSend 3), (1, .netSend 4),
   (1, .acquire), (1, .batchRemove [4]), (1, .release)]

theorem schedEx_programs : ∀ t, ∃ calls, proj t schedEx = program calls := by
  intro t
  match t with
  | 0 => exact ⟨[.connectCall 3], rfl⟩
  | 1 => exact ⟨[.broadcastManagerCall [3, 4] (fun c => c == 4)], rfl⟩
  | (t + 2) => exact ⟨[], rfl⟩

/-- The example sequence of registry calls used for C2: add a handle,
remove it, add it again. -/
def exSeq : List RegistryOp := [.add 0, .remove 0, .add 0]

/-! ## Claim theorems -/

/-- C1: a broadcast over a snapshot of `N` live handles in which the sends
to exactly `M` of them fail performs exactly `N - M` successful
deliveries; the failing handles — and only they — are removed (as one
batch, after the full send pass, which is why every non-failing handle's
delivery and membership is unaffected by the failures of others); so
exactly `M` handles are gone when broadcast returns. -/
theorem broadcast_fanout (fails : ℕ → Bool) (s : Finset ℕ) (N M : ℕ)
    (hN : N = connection_count s)
    (hM : M = connection_count (s.filter fun c => fails c)) :
    (broadcast fails s).delivered = N - M
      ∧ (broadcast fails s).newConnections = s \ s.filter (fun c => fails c)
      ∧ connection_count (broadcast fails s).newConnections = N - M
      ∧ (∀ c ∈ s, fails c = false → c ∈ (broadcast fails s).newConnections)
      ∧ (∀ c ∈ s, fails c = true → c ∉ (broadcast fails s).newConnections) := by
  subst hN hM
  have hsub : (s.filter fun c => fails c) ⊆ s := Finset.filter_subset _ s
  refine ⟨?_, broadcast_newConnections fails s, ?_, ?_, ?_⟩
  · rw [broadcast_delivered]
    simp only [connection_count]
    rw [Finset.filter_not, Finset.card_sdiff hsub]
  · rw [broadcast_newConnections]
    simp only [connection_count]
    rw [Finset.card_sdiff hsub]
  · intro c hc hf
    rw [broadcast_newConnections]
    simp [Finset.mem_sdiff, Finset.mem_filter, hc, hf]
  · intro c hc hf
    rw [broadcast_newConnections]
    simp [Finset.mem_sdiff, Finset.mem_filter, hc, hf]

/-- Witness for C1 at a concrete input: three handles, the send to
handle 1 fails. -/
theorem broadcast_fanout_witness :
    (broadcast (fun c => c == 1) {0, 1, 2}).delivered = 3 - 1
      ∧ (broadcast (fun c => c == 1) {0, 1, 2}).newConnections
          = ({0, 1, 2} : Finset ℕ) \ ({0, 1, 2} : Finset ℕ).filter (fun c => c == 1)
      ∧ connection_count (broadcast (fun c => c == 1) {0, 1, 2}).newConnections = 3 - 1
      ∧ (∀ c ∈ ({0, 1, 2} : Finset ℕ), (c == 1) = false
          → c ∈ (broadcast (fun c => c == 1) {0, 1, 2}).newConnections)
      ∧ (∀ c ∈ ({0, 1, 2} : Finset ℕ), (c == 1) = true
          → c ∉ (broadcast (fun c => c == 1) {0, 1, 2}).newConnections) :=
  broadcast_fanout (fun c => c == 1) {0, 1, 2} 3 1 (by decide) (by decide)

/-- C2, counterexample to the claim as stated: for the sequence
add 0, remove 0, add 0 the final count is 1, but the number of distinct
handles added (1) minus the number of effective removes (1) is 0. -/
theorem count_formula_counterexample :
    ¬ (connection_count (runOps ∅ exSeq)
        = (distinctHandlesAdded exSeq).card - effectiveRemovals ∅ exSeq) := by
  decide

/-- C2, amended: after any sequence of interleaved add/remove/broadcast
calls starting from the empty registry, `count()` equals the number of
*effective* adds (adds of a handle absent at that moment — a duplicate
add changes nothing) minus the number of effective removes (explicit
removes of a present handle — removing an absent handle is a no-op, not
an error — plus handles dropped by a broadcast whose send failed),
stated additively to avoid truncated subtraction. -/
theorem registry_count_invariant :
    (∀ ops : List RegistryOp,
        connection_count (runOps ∅ ops) + effectiveRemovals ∅ ops
          = effectiveAdds ∅ ops)
      ∧ (∀ (h : ℕ) (s : Finset ℕ), h ∈ s → connect h s = s)
      ∧ (∀ (h : ℕ) (s : Finset ℕ), h ∉ s → disconnect h s = s) := by
  refine ⟨?_, ?_, ?_⟩
  · intro ops
    have h := runOps_count_general ops ∅
    simpa [connection_count] using h
  · intro h s hm
    show insert h s = s
    exact Finset.insert_eq_self.mpr hm
  · intro h s hm
    show s.erase h = s
    exact Finset.erase_eq_self.mpr hm

/-- Witness for C2's amended theorem at concrete inputs. -/
theorem registry_count_invariant_witness :
    (connection_count (runOps ∅ exSeq) + effectiveRemovals ∅ exSeq
        = effectiveAdds ∅ exSeq)
      ∧ ((0 : ℕ) ∈ ({0} : Finset ℕ) ∧ connect 0 {0} = {0})
      ∧ ((0 : ℕ) ∉ (∅ : Finset ℕ) ∧ disconnect 0 ∅ = ∅) :=
  ⟨registry_count_invariant.1 exSeq,
   ⟨by decide, registry_count_invariant.2.1 0 {0} (by decide)⟩,
   ⟨by decide, registry_count_invariant.2.2 0 ∅ (by decide)⟩⟩

/-- C3: for every registered session (accept succeeded), whichever of the
three termination reasons ends the receive loop, the handler calls
`disconnect` on its own handle exactly once, as its final registry call
(the `finally` block), and the handle is absent from the final set. -/
theorem session_cleanup_exactly_once (ws : ℕ) (s : Finset ℕ)
    (events : List LoopEvent) (term : TermReason) :
    ((websocket_endpoint true ws s events term).registryCalls.count (.removeCall ws) = 1)
      ∧ (websocket_endpoint true ws s events term).registryCalls.getLast?
          = some (.removeCall ws)
      ∧ (websocket_endpoint true ws s events term).finalConnections
          = disconnect ws (connect ws s)
      ∧ ws ∉ (websocket_endpoint true ws s events term).finalConnections := by
  refine ⟨?_, rfl, rfl, ?_⟩
  · simp [websocket_endpoint, List.count_cons]
  · show ws ∉ disconnect ws (connect ws s)
    simp [disconnect, connect]

/-- C4: once shutdown is initiated, the coordinator's wait loop always
exits within `timeout / 5 + 2` polls (assuming each iteration's 5-second
sleep advances the clock by at least 5): gracefully exactly when the
exiting poll reads count 0, forcibly only when the timeout has already
elapsed and connections remain, never before the timeout, and at the
first poll at which either condition holds (so a poll satisfying both
takes the graceful path, and a zero count is acted on as soon as it is
observed). -/
theorem shutdown_wait_terminates (count elapsed : ℕ → ℕ) (timeout : ℕ)
    (hstep : ∀ i, elapsed i + 5 ≤ elapsed (i + 1)) :
    ∃ r i, wait_for_shutdown true count elapsed timeout (timeout / 5 + 2)
        = .completed r i
      ∧ (r = .graceful ↔ count i = 0)
      ∧ (r = .forced → timeout ≤ elapsed i ∧ count i ≠ 0)
      ∧ (∀ j, j < i → count j ≠ 0 ∧ elapsed j < timeout) := by
  have hgrow : ∀ k, 5 * k ≤ elapsed k := by
    intro k
    induction k with
    | zero => omega
    | succ k ih =>
      have h := hstep k
      omega
  have hex : ∃ k, k < timeout / 5 + 2
      ∧ (count (0 + k) = 0 ∨ timeout ≤ elapsed (0 + k)) := by
    refine ⟨timeout / 5 + 1, by omega, Or.inr ?_⟩
    have h1 := hgrow (timeout / 5 + 1)
    have h2 : timeout ≤ 5 * (timeout / 5 + 1) := by omega
    simpa using Nat.le_trans h2 h1
  have hsome := waitLoopAux_isSome count elapsed timeout (timeout / 5 + 2) 0 hex
  obtain ⟨⟨r, i⟩, heq⟩ := Option.isSome_iff_exists.mp hsome
  obtain ⟨_, hgr, hfo, hmin⟩ :=
    waitLoopAux_exit count elapsed timeout (timeout / 5 + 2) 0 r i heq
  refine ⟨r, i, ?_, hgr, hfo, ?_⟩
  · simp [wait_for_shutdown, heq]
  · intro j hj
    exact hmin j (Nat.zero_le j) hj

/-- Witness for C4: one connection that never closes, clock advancing
exactly 5 seconds per poll, timeout 7: the loop completes (forcibly). -/
theorem shutdown_wait_terminates_witness :
    (∀ i, (fun k => 5 * k) i + 5 ≤ (fun k => 5 * k) (i + 1))
      ∧ ∃ r i, wait_for_shutdown true (fun _ => 1) (fun k => 5 * k) 7 (7 / 5 + 2)
            = .completed r i
          ∧ (r = .graceful ↔ (fun _ => (1 : ℕ)) i = 0)
          ∧ (r = .forced → 7 ≤ (fun k => 5 * k) i ∧ (fun _ => (1 : ℕ)) i ≠ 0)
          ∧ (∀ j, j < i → (fun _ => (1 : ℕ)) j ≠ 0 ∧ (fun k => 5 * k) j < 7) :=
  ⟨fun i => by show 5 * i + 5 ≤ 5 * (i + 1); omega,
   shutdown_wait_terminates (fun _ => 1) (fun k => 5 * k) 7
     (fun i => by show 5 * i + 5 ≤ 5 * (i + 1); omega)⟩

/-- C5: in every lock-legal schedule interleaving tasks each of which is a
sequence of `ConnectionManager` calls, no task performs network I/O
(accept or send) while it holds the registry lock, and every mutation of
`active_connections` (insert, discard, batch removal) and every snapshot
copy is performed by a task holding the lock — so, the lock having at
most one owner, broadcast's mutation of the live set is mutually
exclusive with every concurrent add/remove critical section and vice
versa.  (A send *can* legitimately overlap another task's critical
section: sends are outside the sender's own critical section precisely
so that they block nobody.) -/
theorem registry_lock_discipline (sched : List (ℕ × RegAction))
    (hprog : ∀ t, ∃ calls, proj t sched = program calls)
    (hvalid : (runLock none sched).isSome) :
    disciplinedRun none sched = true := by
  apply disciplined_of_taskOk sched none ?_ hvalid
  intro t
  obtain ⟨calls, hc⟩ := hprog t
  rw [show decide ((none : Option ℕ) = some t) = false by simp, hc]
  exact taskOk_program calls

/-- Witness for C5: the concrete two-task schedule `schedEx`. -/
theorem registry_lock_discipline_witness :
    (∀ t, ∃ calls, proj t schedEx = program calls)
      ∧ disciplinedRun none schedEx = true :=
  ⟨schedEx_programs,
   registry_lock_discipline schedEx schedEx_programs (by decide)⟩

/-- C6: every accepted session sends exactly one welcome message (first),
then answers each inbound text `m` with exactly one echo whose message
is `"Server received: " ++ m`, and each idle timeout with exactly one
ping after which the session remains active (the loop keeps producing
replies for all later events). -/
theorem session_message_protocol (ws : ℕ) (s : Finset ℕ)
    (events : List LoopEvent) (term : TermReason) :
    ((websocket_endpoint true ws s events term).sent.count .welcome = 1)
      ∧ (websocket_endpoint true ws s events term).sent
          = .welcome :: events.map eventReply
      ∧ (∀ d, (websocket_endpoint true ws s events term).sent.count
            (.echo ("Server received: " ++ d)) = events.count (.msg d))
      ∧ (websocket_endpoint true ws s events term).sent.count .ping
          = events.count .timeout := by
  have hsent : (websocket_endpoint true ws s events term).sent
      = .welcome :: events.map eventReply := by
    simp [websocket_endpoint, sessionLoop_eq_map]
  refine ⟨?_, hsent, ?_, ?_⟩
  · rw [hsent]
    simp [List.count_cons, count_welcome_map]
  · intro d
    rw [hsent]
    simp [List.count_cons, count_echo_map]
  · rw [hsent]
    simp [List.count_cons, count_ping_map]

/-- C7: across the scheduler's lifetime, consecutive ticks carry counters
that increase by exactly one, and each payload's `active_connections`
equals the registry count read when that payload was constructed. -/
theorem broadcaster_ticks (counts : ℕ → ℕ) (ticks : ℕ) :
    (∀ i (h1 : i < (notification_broadcaster counts ticks).length)
        (h2 : i + 1 < (notification_broadcaster counts ticks).length),
        ((notification_broadcaster counts ticks).get ⟨i + 1, h2⟩).counter
          = ((notification_broadcaster counts ticks).get ⟨i, h1⟩).counter + 1)
      ∧ (∀ i (h : i < (notification_broadcaster counts ticks).length),
          ((notification_broadcaster counts ticks).get ⟨i, h⟩).active_connections
            = counts (((notification_broadcaster counts ticks).get ⟨i, h⟩).counter)) := by
  constructor
  · intro i h1 h2
    simp only [notification_broadcaster] at h1 h2 ⊢
    rw [broadcasterAux_get counts ticks 0 i h1,
      broadcasterAux_get counts ticks 0 (i + 1) h2]
    simp
  · intro i h
    simp only [notification_broadcaster] at h ⊢
    rw [broadcasterAux_get counts ticks 0 i h]

/-- Witness for C7 at a concrete input: two ticks over a registry whose
count at tick `k` is `k + 41`. -/
theorem broadcaster_ticks_witness :
    (((notification_broadcaster (fun k => k + 41) 2).get ⟨1, by decide⟩).counter
        = ((notification_broadcaster (fun k => k + 41) 2).get ⟨0, by decide⟩).counter + 1)
      ∧ (((notification_broadcaster (fun k => k + 41) 2).get ⟨0, by decide⟩).active_connections
        = (fun k => k + 41)
            (((notification_broadcaster (fun k => k + 41) 2).get ⟨0, by decide⟩).counter)) :=
  ⟨(broadcaster_ticks (fun k => k + 41) 2).1 0 (by decide) (by decide),
   (broadcaster_ticks (fun k => k + 41) 2).2 0 (by decide)⟩

/-- C8: calling `wait_for_shutdown` before shutdown was ever initiated
returns immediately: the outcome is `skipped`, produced by the early
return before any poll of the registry count and before any sleep, and
is independent of the registry, the clock, the timeout and the fuel. -/
theorem wait_skips_when_not_initiated (count elapsed : ℕ → ℕ) (timeout fuel : ℕ) :
    wait_for_shutdown false count elapsed timeout fuel = .skipped := rfl

/-- C9: broadcasting when the registry is empty makes zero send attempts,
delivers nothing, leaves the set unchanged, and returns normally (the
explicit fast path). -/
theorem broadcast_empty_noop (fails : ℕ → Bool) :
    broadcast fails ∅ = { newConnections := ∅, attempts := 0, delivered := 0 } := by
  simp [broadcast]

/-- C10: if the accept handshake raises during `connect`, the handle is
never inserted, the cleanup removal is never reached (no registry call
at all happens), nothing is sent, and the registry set is exactly what
it was before. -/
theorem connect_failure_atomic (ws : ℕ) (s : Finset ℕ)
    (events : List LoopEvent) (term : TermReason) :
    (websocket_endpoint false ws s events term).finalConnections = s
      ∧ (websocket_endpoint false ws s events term).registryCalls = []
      ∧ (websocket_endpoint false ws s events term).sent = [] :=
  ⟨rfl, rfl, rfl⟩

end WsServer
